import Mathlib

/-!
Verification of the map-snap-maker overlay compositor.

This file gives a shallow embedding, over exact rational arithmetic, of the
algorithmic core of the repository:

* `wrapText` and its helpers (src/lib/canvasRenderer.ts, wrapText);
* `calculateCrop` (src/lib/canvasRenderer.ts, calculateCrop);
* the iterative auto-fit text layout loop of `drawOverlay`
  (src/lib/canvasRenderer.ts, lines 209-259), as `layoutTrial` / `fitLoopAux`;
* the date formatter (src/lib/dateUtils.ts, formatDateTime);
* the draw-operation trace of `drawOverlay` under asset-load failures
  (src/lib/canvasRenderer.ts, lines 277-443), as `drawOverlayOps`;
* the size-constrained export loop of `handleDownloadCompressed`
  (src/components/PreviewCanvas.tsx, lines 67-132), as `getBlob` / `compressIter`;
* the preview re-render bookkeeping of `PreviewCanvas`
  (src/components/PreviewCanvas.tsx, lines 18-36), as `previewRun`.

JavaScript numbers are modelled by `ℚ` (exact arithmetic; a remark is added
where IEEE rounding could matter), `ctx.measureText` by an abstract measure
function, and asset loads by `Except` values.
-/

namespace MapSnap

/-! ### JavaScript string primitives

The renderer uses `text.split(' ')` (split on every single space, keeping empty
pieces) and string concatenation.  We model them on the character list of the
string. -/

/-- Model of JS `split(' ')` on a character list; `acc` is the reversed current
piece.  Splits at every single space and keeps empty pieces, exactly like the
JS method with a single-character separator. -/
def splitSp : List Char → List Char → List String
  | [], acc => [String.mk acc.reverse]
  | c :: cs, acc =>
    if c = ' ' then String.mk acc.reverse :: splitSp cs []
    else splitSp cs (c :: acc)

/-- JS `text.split(' ')`. -/
def jsSplit (s : String) : List String := splitSp s.data []

/-- JS `lines.join(' ')`: concatenation with a single space between elements. -/
def joinSp : List String → String
  | [] => ""
  | [s] => s
  | s :: rest => s ++ " " ++ joinSp rest

/-- Left fold gluing words onto a seed line with single spaces; used to state
what a wrapped line is made of. -/
def sepFold (a : String) (l : List String) : String :=
  l.foldl (fun x w => x ++ " " ++ w) a

/-- Nonempty space-separated tokens of a string (the "words" of a line). -/
def lineTokens (s : String) : List String :=
  (jsSplit s).filter (fun w => w ≠ "")

/-- All nonempty tokens of a list of lines, in order. -/
def allTokens (ls : List String) : List String :=
  (ls.map lineTokens).flatten

/-! ### wrapText (src/lib/canvasRenderer.ts, lines 447-463)

The source:

```ts
function wrapText(ctx, text, maxWidth) {
  const words = text.split(' ');
  const result = [];
  let currentLine = '';
  for (const word of words) {
    const testLine = currentLine ? currentLine + ' ' + word : word;
    if (ctx.measureText(testLine).width > maxWidth && currentLine) {
      result.push(currentLine);
      currentLine = word;
    } else {
      currentLine = testLine;
    }
  }
  if (currentLine) result.push(currentLine);
  return result;
}
```

`ctx.measureText(·).width` is abstracted as `measure : String → ℚ`; JS
truthiness of a string is `≠ ""`. -/

/-- The loop of `wrapText`: remaining words, accumulated result, current line. -/
def wrapGo (measure : String → ℚ) (maxWidth : ℚ) :
    List String → List String → String → List String
  | [], result, cur => if cur = "" then result else result ++ [cur]
  | w :: ws, result, cur =>
    let testLine := if cur = "" then w else cur ++ " " ++ w
    if maxWidth < measure testLine ∧ cur ≠ "" then
      wrapGo measure maxWidth ws (result ++ [cur]) w
    else
      wrapGo measure maxWidth ws result testLine

/-- Model of `wrapText` from src/lib/canvasRenderer.ts. -/
def wrapText (measure : String → ℚ) (text : String) (maxWidth : ℚ) : List String :=
  wrapGo measure maxWidth (jsSplit text) [] ""

/-! ### calculateCrop (src/lib/canvasRenderer.ts, lines 69-106) -/

/-- Source and destination rectangles returned by `calculateCrop`. -/
structure CropRect where
  sx : ℚ
  sy : ℚ
  sw : ℚ
  sh : ℚ
  dx : ℚ
  dy : ℚ
  dw : ℚ
  dh : ℚ
deriving DecidableEq, Repr

/-- Model of `calculateCrop`: landscape (srcW ≥ srcH) enforces 4:3, portrait
enforces 3:4, cropping symmetrically on the longer axis; destination is the
cropped source size at origin (0,0). -/
def calculateCrop (srcW srcH : ℚ) : CropRect :=
  let isLandscape := srcW ≥ srcH
  let targetR : ℚ := if isLandscape then 4/3 else 3/4
  let srcR := srcW / srcH
  if isLandscape then
    if srcR > targetR then
      let sw := srcH * targetR
      let sx := (srcW - sw) / 2
      ⟨sx, 0, sw, srcH, 0, 0, sw, srcH⟩
    else if srcR < targetR then
      let sh := srcW / targetR
      let sy := (srcH - sh) / 2
      ⟨0, sy, srcW, sh, 0, 0, srcW, sh⟩
    else
      ⟨0, 0, srcW, srcH, 0, 0, srcW, srcH⟩
  else
    if srcR < targetR then
      let sh := srcW / targetR
      let sy := (srcH - sh) / 2
      ⟨0, sy, srcW, sh, 0, 0, srcW, sh⟩
    else if srcR > targetR then
      let sw := srcH * targetR
      let sx := (srcW - sw) / 2
      ⟨sx, 0, sw, srcH, 0, 0, sw, srcH⟩
    else
      ⟨0, 0, srcW, srcH, 0, 0, srcW, srcH⟩

/-! ### The auto-fit text layout loop of drawOverlay
(src/lib/canvasRenderer.ts, lines 209-259) -/

/-- JS `Math.round` (round half toward positive infinity). -/
def jround (q : ℚ) : ℤ := ⌊q + 1/2⌋

/-- One entry of the `lines` array built by `drawOverlay` (text segment with a
nominal font size, weight, and optional inline-flag marker). -/
structure Seg where
  text : String
  fontSize : ℤ
  bold : Bool
  hasFlag : Bool

/-- One entry of `wrappedTextData`. -/
structure WrappedBlock where
  lines : List String
  fontSize : ℤ
  bold : Bool
  hasFlag : Bool
deriving DecidableEq

/-- The quantities of `drawOverlay` that the layout loop reads: the pixel
`scale`, the text content width bound, and the text height bound. -/
structure LayoutParams where
  scale : ℚ
  maxTextContentWidth : ℚ
  maxTextHeight : ℚ

/-- Accumulator of one trial of the layout loop (one pass over `lines`). -/
structure TrialResult where
  wrapped : List WrappedBlock
  totalTextHeight : ℚ
  maxLineWidthFound : ℚ
  forceShrink : Bool

/-- The `lineHeight` constant of `drawOverlay` (1.2). -/
def lineHeight : ℚ := 6/5

/-- The `minScaleFactor` constant of `drawOverlay` (0.5). -/
def minScaleFactor : ℚ := 1/2

/-- The reserved inline flag space of a segment at the current trial:
`Math.round(scaledFontSize * 1.2) + Math.round(8 * scale)` when the segment
carries the flag, else 0. -/
def segFlagSpace (p : LayoutParams) (l : Seg) (scaledFontSize : ℤ) : ℤ :=
  if l.hasFlag then jround ((scaledFontSize : ℚ) * (6/5)) + jround (8 * p.scale) else 0

/-- The wrapped lines of one segment at trial scale `cf` — the
`wrapText(ctx, line.text, maxTextContentWidth - flagSpace)` call of the loop
body, with the font set to the scaled size.  `measure bold size s` abstracts
`ctx.measureText(s).width` under `ctx.font = (bold ? 700 : 400) size px`. -/
def segWrapAt (measure : Bool → ℤ → String → ℚ) (p : LayoutParams) (l : Seg) (cf : ℚ) :
    List String :=
  let scaledFontSize := jround ((l.fontSize : ℚ) * cf)
  wrapText (measure l.bold scaledFontSize) l.text
    (p.maxTextContentWidth - (segFlagSpace p l scaledFontSize : ℚ))

/-- The body of one pass of the layout loop for one segment: wrap it at the
scaled font size, append the wrapped block, accumulate the block height
`wrapped.length * scaledFontSize * lineHeight`, track the widest line
(including the reserved flag space), and raise `forceShrink` when the segment
wraps to more than 3 lines or a flag-carrying segment wraps to more than 2
lines. -/
def layoutStep (measure : Bool → ℤ → String → ℚ) (p : LayoutParams) (cf : ℚ)
    (acc : TrialResult) (l : Seg) : TrialResult :=
  let scaledFontSize := jround ((l.fontSize : ℚ) * cf)
  let flagSpace := segFlagSpace p l scaledFontSize
  let wrapped := segWrapAt measure p l cf
  let widths := wrapped.map (fun wLine =>
    measure l.bold scaledFontSize wLine + (if l.hasFlag then (flagSpace : ℚ) else 0))
  { wrapped := acc.wrapped ++ [⟨wrapped, scaledFontSize, l.bold, l.hasFlag⟩]
    totalTextHeight :=
      acc.totalTextHeight + (wrapped.length : ℚ) * (scaledFontSize : ℚ) * lineHeight
    maxLineWidthFound := widths.foldl max acc.maxLineWidthFound
    forceShrink :=
      acc.forceShrink || decide (3 < wrapped.length) ||
        (l.hasFlag && decide (2 < wrapped.length)) }

/-- One trial of the layout loop at scale `cf`: one `layoutStep` pass over all
segments.  The title-body gap `Math.round(-5 * scale)` is added to the height
after the pass, as in the source. -/
def layoutTrial (measure : Bool → ℤ → String → ℚ) (p : LayoutParams)
    (segs : List Seg) (cf : ℚ) : TrialResult :=
  let base := segs.foldl (layoutStep measure p cf) ⟨[], 0, 0, false⟩
  { base with totalTextHeight := base.totalTextHeight + (jround (-5 * p.scale) : ℚ) }

/-- The `while (true)` auto-fit loop: run a trial at the current scale, stop
when the block fits without a forced shrink or the scale floor is reached,
otherwise retry at `cf - 0.01`.  The fuel argument only bounds the recursion;
`autoFitLayout` supplies 201, which is shown (theorem for C4) to always
suffice, since 2.5 reaches the 0.5 floor after exactly 200 steps of 0.01. -/
def fitLoopAux (trial : ℚ → TrialResult) (maxTextHeight : ℚ) :
    ℕ → ℚ → Option (TrialResult × ℚ)
  | 0, _ => none
  | n + 1, cf =>
    let t := trial cf
    if (t.totalTextHeight ≤ maxTextHeight ∧ t.forceShrink = false) ∨ cf ≤ minScaleFactor then
      some (t, cf)
    else
      fitLoopAux trial maxTextHeight n (cf - 1/100)

/-- The auto-fit layout of `drawOverlay`: start at scale 2.5 and shrink by 0.01
per rejected trial down to the 0.5 floor. -/
def autoFitLayout (measure : Bool → ℤ → String → ℚ) (p : LayoutParams)
    (segs : List Seg) : Option (TrialResult × ℚ) :=
  fitLoopAux (layoutTrial measure p segs) p.maxTextHeight 201 (5/2)

/-! ### formatDateTime (src/lib/dateUtils.ts) -/

/-- The fixed (Indonesian) day-name table of dateUtils.ts, indexed by
`Date.getDay()` (0 = Sunday). -/
def DAYS : List String := ["Minggu", "Senin", "Selasa", "Rabu", "Kamis", "Jumat", "Sabtu"]

/-- The fixed month-string table of dateUtils.ts, indexed by
`Date.getMonth()` (0-based). -/
def MONTHS_SHORT : List String :=
  ["01", "02", "03", "04", "05", "06", "07", "08", "09", "10", "11", "12"]

/-- The local-time fields of a JS `Date` that `formatDateTime` reads:
year, 0-based month, 1-based day of month, hours, minutes. -/
structure JSDate where
  year : ℕ
  month : Fin 12
  day : ℕ
  hours : ℕ
  minutes : ℕ

/-- Gregorian leap-year test. -/
def isLeapYear (y : ℕ) : Bool := (y % 4 == 0 && y % 100 != 0) || y % 400 == 0

/-- Days in the 0-based month `m` of year `y`. -/
def daysInMonth (y m : ℕ) : ℕ :=
  if m = 1 then (if isLeapYear y then 29 else 28)
  else if m = 3 ∨ m = 5 ∨ m = 8 ∨ m = 10 then 30
  else 31

/-- Days from 1970-01-01 to the start of year `y` (for `y ≥ 1970`). -/
def daysBeforeYear (y : ℕ) : ℕ :=
  (List.range (y - 1970)).foldl
    (fun acc i => acc + (if isLeapYear (1970 + i) then 366 else 365)) 0

/-- Days from the start of year `y` to the start of its 0-based month `m`. -/
def daysBeforeMonth (y m : ℕ) : ℕ :=
  (List.range m).foldl (fun acc i => acc + daysInMonth y i) 0

/-- Days from 1970-01-01 to the given date. -/
def epochDays (d : JSDate) : ℕ :=
  daysBeforeYear d.year + daysBeforeMonth d.year d.month.val + (d.day - 1)

/-- Model of `Date.prototype.getDay` (0 = Sunday) for local dates at or after
1970-01-01, which was a Thursday (index 4). -/
def getDay (d : JSDate) : ℕ := (epochDays d + 4) % 7

/-- JS `String(n).padStart(2, '0')` for a natural number. -/
def pad2 (n : ℕ) : String :=
  let s := toString n
  if s.length < 2 then "0" ++ s else s

/-- Model of `formatDateTime` from src/lib/dateUtils.ts. -/
def formatDateTime (date : JSDate) (timezoneOffset : String) (use24h : Bool) : String :=
  let dayName := DAYS.getD (getDay date) ""
  let dd := pad2 date.day
  let mm := MONTHS_SHORT.getD date.month.val ""
  let yyyy := toString date.year
  if use24h then
    let hh := pad2 date.hours
    let mn := pad2 date.minutes
    dayName ++ ", " ++ dd ++ "/" ++ mm ++ "/" ++ yyyy ++ " " ++ hh ++ ":" ++ mn ++
      " GMT " ++ timezoneOffset
  else
    let h0 := date.hours % 12
    let h12 := if h0 = 0 then 12 else h0
    let ampm := if 12 ≤ date.hours then "PM" else "AM"
    let hh := pad2 h12
    let mn := pad2 date.minutes
    dayName ++ ", " ++ dd ++ "/" ++ mm ++ "/" ++ yyyy ++ " " ++ hh ++ ":" ++ mn ++
      " " ++ ampm ++ " GMT " ++ timezoneOffset

/-- Modelled from the spec: the displayed date/time string format
`DayName, DD/MM/YYYY HH:MM GMT ±HH:MM` (24h) resp.
`DayName, DD/MM/YYYY HH:MM AM|PM GMT ±HH:MM` (12h), with the fixed day-name
table and zero-padded two-digit day, month, hour and minute tokens. -/
def formatDateTimeSpec (date : JSDate) (timezoneOffset : String) (use24h : Bool) : String :=
  let dayName := DAYS.getD (getDay date) ""
  let datePart := pad2 date.day ++ "/" ++ pad2 (date.month.val + 1) ++ "/" ++ toString date.year
  let timePart :=
    if use24h then pad2 date.hours ++ ":" ++ pad2 date.minutes
    else
      pad2 (if date.hours % 12 = 0 then 12 else date.hours % 12) ++ ":" ++
        pad2 date.minutes ++ " " ++ (if date.hours < 12 then "AM" else "PM")
  dayName ++ ", " ++ datePart ++ " " ++ timePart ++ " GMT " ++ timezoneOffset

/-! ### The draw-operation trace of drawOverlay under asset failures
(src/lib/canvasRenderer.ts, lines 277-443)

Each drawing action of `drawOverlay` after the layout loop becomes one
`DrawOp`; the three awaited asset loads (badge icon, static map, flag) are
inputs of type `Except Unit Unit`, and each is consumed inside the same
try/catch structure as the source. -/

/-- One drawing action of `drawOverlay`, in source order. -/
inductive DrawOp
  | badgeBox
  | badgeIcon
  | badgeText (txt : String)
  | infoBox
  | mapWhiteBg
  | mapImage
  | mapLogo
  | mapPlaceholderFill
  | mapLabel
  | textLine (s : String)
  | flagImage
deriving DecidableEq, Repr

/-- The drawing actions emitted by `drawOverlay` after the layout loop, given
the outcome of the three asset loads.  The badge icon failure is caught and
only logged (no substitute drawing); the map failure is caught and replaced by
a solid placeholder fill plus the `Map` label; the flag failure is caught and
the flag is simply not drawn.  The function itself never fails. -/
def drawOverlayOps (iconLoad mapLoad flagLoad : Except Unit Unit)
    (countryCode : String) (wmText : String) (wrappedTextData : List WrappedBlock) :
    Except Unit (List DrawOp) :=
  let badgeOps := [DrawOp.badgeBox] ++
    (match iconLoad with
      | .ok _ => [DrawOp.badgeIcon]
      | .error _ => []) ++
    [DrawOp.badgeText wmText]
  let mapOps :=
    match mapLoad with
    | .ok _ => [DrawOp.mapWhiteBg, DrawOp.mapImage, DrawOp.mapLogo]
    | .error _ => [DrawOp.mapPlaceholderFill, DrawOp.mapLabel]
  let flagWanted : Bool :=
    (match wrappedTextData.head? with
      | some b => b.hasFlag
      | none => false) && !(countryCode == "")
  let flagImg : Bool := flagWanted &&
    (match flagLoad with
      | .ok _ => true
      | .error _ => false)
  let textOps := (wrappedTextData.map (fun block =>
    (block.lines.map DrawOp.textLine) ++
      (if block.hasFlag && flagImg && !(block.lines == []) then [DrawOp.flagImage] else []))).flatten
  Except.ok (badgeOps ++ [DrawOp.infoBox] ++ mapOps ++ textOps)

/-! ### The size-constrained export of handleDownloadCompressed
(src/components/PreviewCanvas.tsx, lines 67-132) -/

/-- What one `getBlob(quality, scale)` call produces: the canvas dimensions at
which `renderPreview` computed the composite (`layoutW`, `layoutH`), the
dimensions of the surface handed to the JPEG encoder (`outW`, `outH`), whether
a `drawImage` downsampling step was applied, and the encode quality. -/
structure RenderSpec where
  layoutW : ℚ
  layoutH : ℚ
  outW : ℚ
  outH : ℚ
  downsampled : Bool
  quality : ℚ
deriving DecidableEq

/-- Model of `getBlob` (PreviewCanvas.tsx lines 77-103): render the full
composite with `renderPreview` on a fresh canvas at the full cropped
resolution, then, when `scale < 1`, draw that surface onto a smaller canvas of
`scale` times the size, and encode the final canvas as JPEG at `quality`. -/
def getBlob (natW natH quality scale : ℚ) : RenderSpec :=
  let crop := calculateCrop natW natH
  if scale < 1 then
    ⟨crop.dw, crop.dh, crop.dw * scale, crop.dh * scale, true, quality⟩
  else
    ⟨crop.dw, crop.dh, crop.dw, crop.dh, false, quality⟩

/-- Modelled from the spec: Contract B step (2), "re-renders the full composite
at the current scale (cropping/layout must be recomputed at each scale ...) and
encodes at the current quality" — the composite is laid out directly at the
scaled dimensions and no downsampling of a full-resolution surface occurs. -/
def getBlobSpecContract (natW natH quality scale : ℚ) : RenderSpec :=
  let crop := calculateCrop natW natH
  ⟨crop.dw * scale, crop.dh * scale, crop.dw * scale, crop.dh * scale, false, quality⟩

/-- The retry loop of `handleDownloadCompressed` (lines 105-117):

```ts
let quality = 0.8;
let scale = 1.0;
let blob = await getBlob(quality, scale);
while (blob.size > 500 * 1024 && (quality > 0.1 || scale > 0.3)) {
  if (quality > 0.3) { quality -= 0.1; } else { scale -= 0.1; }
  blob = await getBlob(quality, scale);
}
```

`encodeSize quality scale` abstracts `blob.size` for the blob produced by
`getBlob(quality, scale)`.  The fuel argument counts loop iterations so that
statements about (non-)termination can be made; `none` means the loop was
still running after `fuel` iterations.  Quality decrements stop at the 0.3
floor, so in exact arithmetic quality never drops below 0.3 (under IEEE
doubles it bottoms out near 0.2 after one extra decrement — in either case it
stays above 0.1, which is what the theorems below use). -/
def compressIter (encodeSize : ℚ → ℚ → ℕ) : ℕ → ℚ → ℚ → Option ℕ
  | 0, _, _ => none
  | n + 1, quality, scale =>
    let b := encodeSize quality scale
    if 500 * 1024 < b ∧ (1/10 < quality ∨ 3/10 < scale) then
      if 3/10 < quality then compressIter encodeSize n (quality - 1/10) scale
      else compressIter encodeSize n quality (scale - 1/10)
    else some b

/-- The whole size-constrained export loop, started at quality 0.8, scale 1.0,
observed for `fuel` iterations. -/
def handleDownloadCompressedLoop (encodeSize : ℚ → ℚ → ℕ) (fuel : ℕ) : Option ℕ :=
  compressIter encodeSize fuel (8/10) 1

/-! ### The preview staleness bookkeeping of PreviewCanvas
(src/components/PreviewCanvas.tsx, lines 18-36)

The component keeps `renderIdRef`; the effect increments it and starts an
asynchronous `renderPreview` that draws directly onto the visible canvas when
it resolves.  The captured `currentId` is never compared against
`renderIdRef.current` before drawing, so a resolving composite always
overwrites the canvas. -/

/-- Observable component state: the `renderIdRef` counter and which requested
composite the visible canvas currently shows. -/
structure PreviewState where
  renderId : ℕ
  shown : Option ℕ
deriving DecidableEq, Repr

/-- An event of the preview pipeline: a new render request (the effect runs),
or the completion of the in-flight render that was started as request `id`. -/
inductive PreviewEvent
  | request
  | complete (id : ℕ)

/-- One event step: a request increments `renderIdRef`; a completion draws the
finished composite onto the visible canvas unconditionally, exactly as
`safeRender` does (there is no staleness check before drawing). -/
def previewStep (st : PreviewState) : PreviewEvent → PreviewState
  | .request => { st with renderId := st.renderId + 1 }
  | .complete id => { st with shown := some id }

/-- Run of the preview pipeline from the initial state (`renderIdRef = 0`,
empty canvas). -/
def previewRun (evs : List PreviewEvent) : PreviewState :=
  evs.foldl previewStep ⟨0, none⟩

end MapSnap

/-! ## Generic helper lemmas -/

namespace MapSnap

/-- String equality follows from equality of the character data. -/
lemma strEq_of_data (a b : String) (h : a.data = b.data) : a = b := by
  cases a; cases b; exact congrArg String.mk h

/-- The character data of an appended string. -/
lemma strData_append (a b : String) : (a ++ b).data = a.data ++ b.data := by
  cases a; cases b; rfl

end MapSnap

/-! ## Theorems -/

namespace MapSnap

/-- C3: for positive source dimensions, `calculateCrop` returns a destination
rectangle at origin (0,0) whose dimensions equal the cropped source dimensions,
whose width/height ratio is exactly 4/3 in landscape (`srcW ≥ srcH`) and 3/4 in
portrait, and a source rectangle fully contained in the source image bounds. -/
theorem calculateCrop_contract (srcW srcH : ℚ) (hw : 0 < srcW) (hh : 0 < srcH) :
    (calculateCrop srcW srcH).dx = 0 ∧ (calculateCrop srcW srcH).dy = 0 ∧
    (calculateCrop srcW srcH).dw = (calculateCrop srcW srcH).sw ∧
    (calculateCrop srcW srcH).dh = (calculateCrop srcW srcH).sh ∧
    (calculateCrop srcW srcH).dw / (calculateCrop srcW srcH).dh
      = (if srcH ≤ srcW then (4 : ℚ)/3 else 3/4) ∧
    0 ≤ (calculateCrop srcW srcH).sx ∧ 0 ≤ (calculateCrop srcW srcH).sy ∧
    (calculateCrop srcW srcH).sx + (calculateCrop srcW srcH).sw ≤ srcW ∧
    (calculateCrop srcW srcH).sy + (calculateCrop srcW srcH).sh ≤ srcH := by
  have hH : srcH ≠ 0 := ne_of_gt hh
  have hW : srcW ≠ 0 := ne_of_gt hw
  rcases le_or_lt srcH srcW with hl | hl
  · simp only [calculateCrop, ge_iff_le, hl, if_true]
    split_ifs with h2 h3
    · have key : 4/3 * srcH < srcW := (lt_div_iff₀ hh).mp h2
      refine ⟨rfl, rfl, rfl, rfl, ?_, ?_, le_refl 0, ?_, ?_⟩
      · show srcH * (4/3) / srcH = 4/3
        field_simp
        ring
      · show 0 ≤ (srcW - srcH * (4/3)) / 2
        linarith
      · show (srcW - srcH * (4/3)) / 2 + srcH * (4/3) ≤ srcW
        linarith
      · show (0 : ℚ) + srcH ≤ srcH
        linarith
    · have key : srcW < 4/3 * srcH := (div_lt_iff₀ hh).mp h3
      have e : srcW / (4/3 : ℚ) = 3/4 * srcW := by ring
      refine ⟨rfl, rfl, rfl, rfl, ?_, le_refl 0, ?_, ?_, ?_⟩
      · show srcW / (srcW / (4/3)) = 4/3
        rw [e]; field_simp; ring
      · show 0 ≤ (srcH - srcW / (4/3)) / 2
        rw [e]; linarith
      · show (0 : ℚ) + srcW ≤ srcW
        linarith
      · show (srcH - srcW / (4/3)) / 2 + srcW / (4/3) ≤ srcH
        rw [e]; linarith
    · have he : srcW / srcH = 4/3 := le_antisymm (not_lt.mp h2) (not_lt.mp h3)
      refine ⟨rfl, rfl, rfl, rfl, he, le_refl 0, le_refl 0, ?_, ?_⟩
      · show (0 : ℚ) + srcW ≤ srcW
        linarith
      · show (0 : ℚ) + srcH ≤ srcH
        linarith
  · have hl' : ¬ srcH ≤ srcW := not_le.mpr hl
    simp only [calculateCrop, ge_iff_le, hl', if_false]
    split_ifs with h2 h3
    · have key : srcW < 3/4 * srcH := (div_lt_iff₀ hh).mp h2
      have e : srcW / (3/4 : ℚ) = 4/3 * srcW := by ring
      refine ⟨rfl, rfl, rfl, rfl, ?_, le_refl 0, ?_, ?_, ?_⟩
      · show srcW / (srcW / (3/4)) = 3/4
        rw [e]; field_simp; ring
      · show 0 ≤ (srcH - srcW / (3/4)) / 2
        rw [e]; linarith
      · show (0 : ℚ) + srcW ≤ srcW
        linarith
      · show (srcH - srcW / (3/4)) / 2 + srcW / (3/4) ≤ srcH
        rw [e]; linarith
    · have key : 3/4 * srcH < srcW := (lt_div_iff₀ hh).mp h3
      refine ⟨rfl, rfl, rfl, rfl, ?_, ?_, le_refl 0, ?_, ?_⟩
      · show srcH * (3/4) / srcH = 3/4
        field_simp
        ring
      · show 0 ≤ (srcW - srcH * (3/4)) / 2
        linarith
      · show (srcW - srcH * (3/4)) / 2 + srcH * (3/4) ≤ srcW
        linarith
      · show (0 : ℚ) + srcH ≤ srcH
        linarith
    · have he : srcW / srcH = 3/4 := le_antisymm (not_lt.mp h3) (not_lt.mp h2)
      refine ⟨rfl, rfl, rfl, rfl, he, le_refl 0, le_refl 0, ?_, ?_⟩
      · show (0 : ℚ) + srcW ≤ srcW
        linarith
      · show (0 : ℚ) + srcH ≤ srcH
        linarith

/-- Witness for C3: the contract instantiated at a concrete 4000 × 3000
landscape source, whose destination ratio evaluates to 4/3. -/
theorem calculateCrop_contract_witness :
    (calculateCrop 4000 3000).dw / (calculateCrop 4000 3000).dh = 4/3 := by
  have h := calculateCrop_contract 4000 3000 (by norm_num) (by norm_num)
  rw [h.2.2.2.2.1]
  norm_num

end MapSnap

namespace MapSnap

/-- C7: the preview pipeline does not discard stale composites.  In the run
where request 1 and request 2 are both in flight and the newer composite
(render 2) resolves before the older one (render 1), the visible canvas ends
up showing render 1 even though `renderIdRef` records request 2 as the most
recent: the older, slower-resolving composite overwrites the newer result,
because `safeRender` draws to the visible canvas without comparing the
captured id against `renderIdRef.current`. -/
theorem previewRun_presents_stale_composite :
    (previewRun [.request, .request, .complete 2, .complete 1]).shown = some 1 ∧
    (previewRun [.request, .request, .complete 2, .complete 1]).renderId = 2 := by
  constructor <;> rfl

/-- The reachable quality values of the compression loop: starting from 0.8
and decrementing by 0.1 only while above the 0.3 floor, quality always equals
`0.8 - k/10` for some `k ≤ 5`, hence never drops to 0.1 or below, so the exit
clause `quality ≤ 0.1 ∧ scale ≤ 0.3` of the loop guard can never hold.  With
an encoder that stays above the 500 KB budget the loop therefore never exits,
whatever the iteration bound. -/
lemma compressIter_oversize_never_exits :
    ∀ (n : ℕ) (q s : ℚ), (∃ k : ℕ, k ≤ 5 ∧ q = 8/10 - (k : ℚ)/10) →
      compressIter (fun _ _ => 600 * 1024) n q s = none := by
  intro n
  induction n with
  | zero => intro q s _; rfl
  | succ n ih =>
    rintro q s ⟨k, hk, rfl⟩
    have hk5 : (k : ℚ) ≤ 5 := by exact_mod_cast hk
    have hq3 : (3 : ℚ)/10 ≤ 8/10 - (k : ℚ)/10 := by linarith
    rw [compressIter]
    rw [if_pos ⟨by norm_num, Or.inl (by linarith)⟩]
    by_cases h : (3 : ℚ)/10 < 8/10 - (k : ℚ)/10
    · rw [if_pos h]
      apply ih
      refine ⟨k + 1, ?_, ?_⟩
      · have : (k : ℚ) < 5 := by linarith
        have : k < 5 := by exact_mod_cast this
        omega
      · push_cast
        ring
    · rw [if_neg h]
      exact ih _ _ ⟨k, hk, rfl⟩

/-- C1: refutation of bounded termination.  For an input image whose JPEG
encoding exceeds the 500 KB budget at every quality and scale the loop tries
(modelled by a constant 600 KB encoder), `handleDownloadCompressed`'s retry
loop is still running after any number of iterations: its guard
`blob.size > 500*1024 && (quality > 0.1 || scale > 0.3)` never becomes false,
because quality decrements stop at the 0.3 floor and hence `quality > 0.1`
holds forever, while scale decreases without bound. -/
theorem handleDownloadCompressed_loops_forever_on_oversize :
    ∀ fuel : ℕ, handleDownloadCompressedLoop (fun _ _ => 600 * 1024) fuel = none := by
  intro fuel
  exact compressIter_oversize_never_exits fuel (8/10) 1 ⟨0, by norm_num, by norm_num⟩

/-- C2 counterexample: at a 4000 × 3000 source (already exactly 4:3), quality
0.8 and scale 0.5, `getBlob` lays out the composite at the full 4000-wide
resolution — not at the 2000-wide scaled resolution the claim requires — and
then downsamples the freshly rendered full-resolution surface. -/
theorem getBlob_not_laid_out_at_scale :
    (getBlob 4000 3000 (8/10) (1/2)).layoutW = 4000 ∧
    (getBlobSpecContract 4000 3000 (8/10) (1/2)).layoutW = 2000 ∧
    (getBlob 4000 3000 (8/10) (1/2)).downsampled = true := by
  have hc : calculateCrop 4000 3000 = ⟨0, 0, 4000, 3000, 0, 0, 4000, 3000⟩ := by
    unfold calculateCrop
    norm_num
  refine ⟨?_, ?_, ?_⟩ <;> simp [getBlob, getBlobSpecContract, hc] <;> norm_num

/-- C2 amended: every retry of the size-constrained export re-renders the
full composite from scratch, but always at the full cropped resolution — the
layout dimensions of every `getBlob` call equal the `calculateCrop` output,
independent of the current scale — and encodes at the current quality; when
`scale < 1`, the current scale is applied by downsampling the freshly rendered
full-resolution surface, not by re-running crop/layout at the scaled size. -/
theorem getBlob_rerenders_fullres_then_downsamples (natW natH q s : ℚ) :
    (getBlob natW natH q s).layoutW = (calculateCrop natW natH).dw ∧
    (getBlob natW natH q s).layoutH = (calculateCrop natW natH).dh ∧
    (getBlob natW natH q s).quality = q ∧
    (s < 1 →
      (getBlob natW natH q s).outW = (calculateCrop natW natH).dw * s ∧
      (getBlob natW natH q s).outH = (calculateCrop natW natH).dh * s ∧
      (getBlob natW natH q s).downsampled = true) ∧
    (1 ≤ s →
      (getBlob natW natH q s).outW = (calculateCrop natW natH).dw ∧
      (getBlob natW natH q s).outH = (calculateCrop natW natH).dh ∧
      (getBlob natW natH q s).downsampled = false) := by
  unfold getBlob
  by_cases h : s < 1
  · have h' : ¬ (1 : ℚ) ≤ s := not_le.mpr h
    simp [h, h']
  · have h' : (1 : ℚ) ≤ s := not_lt.mp h
    simp [h, h']

/-- Witness for C2 (amended): the theorem applied at the concrete input
4000 × 3000, quality 0.8, scale 0.5, where the scale hypothesis 0.5 < 1 is
discharged numerically. -/
theorem getBlob_rerenders_fullres_then_downsamples_witness :
    (1 : ℚ)/2 < 1 ∧ (getBlob 4000 3000 (8/10) (1/2)).downsampled = true := by
  have h := getBlob_rerenders_fullres_then_downsamples 4000 3000 (8/10) (1/2)
  exact ⟨by norm_num, (h.2.2.2.1 (by norm_num)).2.2⟩

end MapSnap

namespace MapSnap

/-- The code's month-string table agrees with zero-padding the 1-based month
number, for every valid 0-based month index. -/
lemma MONTHS_SHORT_getD (m : Fin 12) : MONTHS_SHORT.getD m.val "" = pad2 (m.val + 1) := by
  revert m
  decide

/-- C6: `formatDateTime` produces exactly the spec format string — in 24h mode
`DayName, DD/MM/YYYY HH:MM GMT ±HH:MM` and in 12h mode
`DayName, DD/MM/YYYY HH:MM AM|PM GMT ±HH:MM`, with the fixed day-name table
and zero-padded two-digit day, month, hour and minute tokens (refinement
against `formatDateTimeSpec`, which is built from the words of the spec) —
and on the concrete local time 2024-03-15 14:30 with offset `+07:00` in 24h
mode it returns the string `Jumat, 15/03/2024 14:30 GMT +07:00`. -/
theorem formatDateTime_format_contract :
    (∀ (d : JSDate) (off : String) (use24h : Bool),
      formatDateTime d off use24h = formatDateTimeSpec d off use24h) ∧
    formatDateTime ⟨2024, 2, 15, 14, 30⟩ "+07:00" true
      = "Jumat, 15/03/2024 14:30 GMT +07:00" := by
  constructor
  · intro d off use24h
    unfold formatDateTime formatDateTimeSpec
    rw [MONTHS_SHORT_getD]
    cases use24h
    · simp only [if_neg, Bool.false_eq_true, if_false]
      rcases lt_or_le d.hours 12 with h | h
      · rw [if_neg (not_le.mpr h), if_pos h]
        apply strEq_of_data
        simp [strData_append, List.append_assoc]
      · rw [if_pos h, if_neg (not_lt.mpr h)]
        apply strEq_of_data
        simp [strData_append, List.append_assoc]
    · simp only [if_pos]
      apply strEq_of_data
      simp [strData_append, List.append_assoc]
  · decide

end MapSnap

namespace MapSnap

/-! ## Lemmas on splitting and joining -/

/-- `splitSp` always produces at least one piece. -/
lemma splitSp_ne_nil (cs : List Char) (acc : List Char) : splitSp cs acc ≠ [] := by
  induction cs generalizing acc with
  | nil => simp [splitSp]
  | cons c cs ih =>
    by_cases h : c = ' '
    · simp [splitSp, h]
    · simp only [splitSp, if_neg h]
      exact ih _

/-- Splitting around an explicit middle space splits into the two halves. -/
lemma splitSp_append_space (xs ys : List Char) (acc : List Char) :
    splitSp (xs ++ ' ' :: ys) acc = splitSp xs acc ++ splitSp ys [] := by
  induction xs generalizing acc with
  | nil => simp [splitSp]
  | cons c xs ih =>
    by_cases h : c = ' '
    · subst h
      simp [splitSp, ih]
    · simp [splitSp, h, ih]

/-- Every piece produced by `splitSp` is space-free (given a space-free
accumulator). -/
lemma splitSp_no_space (cs : List Char) (acc : List Char)
    (hacc : ∀ c ∈ acc, c ≠ ' ') :
    ∀ w ∈ splitSp cs acc, ∀ c ∈ w.data, c ≠ ' ' := by
  induction cs generalizing acc with
  | nil =>
    intro w hw
    simp only [splitSp, List.mem_singleton] at hw
    subst hw
    intro c hc
    simp only [List.mem_reverse] at hc
    exact hacc c hc
  | cons ch cs ih =>
    intro w hw
    by_cases h : ch = ' '
    · rw [splitSp, if_pos h] at hw
      rcases List.mem_cons.mp hw with rfl | hw
      · intro c hc
        simp only [List.mem_reverse] at hc
        exact hacc c hc
      · exact ih [] (by simp) w hw
    · rw [splitSp, if_neg h] at hw
      refine ih (ch :: acc) ?_ w hw
      intro c hc
      rcases List.mem_cons.mp hc with rfl | hc
      · exact h
      · exact hacc c hc

/-- A space-free character list splits as a single piece. -/
lemma splitSp_no_space_eq (cs : List Char) (acc : List Char)
    (h : ∀ c ∈ cs, c ≠ ' ') :
    splitSp cs acc = [String.mk (acc.reverse ++ cs)] := by
  induction cs generalizing acc with
  | nil => simp [splitSp]
  | cons c cs ih =>
    have hc : c ≠ ' ' := h c (by simp)
    simp only [splitSp, if_neg hc]
    rw [ih (c :: acc) (fun x hx => h x (by simp [hx]))]
    simp

/-- The tokens of a line glued from two halves with a single space. -/
lemma lineTokens_append_space (a b : String) :
    lineTokens (a ++ " " ++ b) = lineTokens a ++ lineTokens b := by
  unfold lineTokens jsSplit
  rw [strData_append, strData_append]
  rw [List.append_assoc]
  show (splitSp (a.data ++ ' ' :: b.data) []).filter _ = _
  rw [splitSp_append_space]
  simp [List.filter_append]

/-- The tokens of a single space-free word. -/
lemma lineTokens_word (w : String) (hw : ∀ c ∈ w.data, c ≠ ' ') :
    lineTokens w = if w = "" then [] else [w] := by
  unfold lineTokens jsSplit
  rw [splitSp_no_space_eq w.data [] hw]
  simp only [List.reverse_nil, List.nil_append]
  have hmk : String.mk w.data = w := by cases w; rfl
  rw [hmk]
  by_cases h : w = ""
  · simp [h, List.filter]
  · simp [h, List.filter]

/-- The empty string has no tokens. -/
lemma lineTokens_empty : lineTokens "" = [] := by
  rw [lineTokens_word "" (by simp)]
  simp

/-- `allTokens` distributes over list append. -/
lemma allTokens_append (xs ys : List String) :
    allTokens (xs ++ ys) = allTokens xs ++ allTokens ys := by
  unfold allTokens
  simp

/-- `allTokens` of a single line. -/
lemma allTokens_singleton (s : String) : allTokens [s] = lineTokens s := by
  unfold allTokens
  simp

/-- Flattening the per-word tokens of space-free words leaves the nonempty
words. -/
lemma flatten_word_tokens (ws : List String) (h : ∀ w ∈ ws, ∀ c ∈ w.data, c ≠ ' ') :
    (ws.map lineTokens).flatten = ws.filter (fun w => w ≠ "") := by
  induction ws with
  | nil => simp [allTokens]
  | cons w ws ih =>
    simp only [List.map_cons, List.flatten_cons, List.filter_cons]
    rw [lineTokens_word w (h w (by simp)), ih (fun x hx => h x (by simp [hx]))]
    by_cases hw : w = "" <;> simp [hw]

/-! ## Token preservation through the wrapText loop -/

/-- The tokens of the output of the `wrapText` loop are the tokens already
flushed, the tokens of the current line, and the remaining words. -/
lemma wrapGo_tokens (measure : String → ℚ) (maxW : ℚ) :
    ∀ (ws res : List String) (cur : String),
      (∀ w ∈ ws, ∀ c ∈ w.data, c ≠ ' ') →
      allTokens (wrapGo measure maxW ws res cur)
        = allTokens res ++ lineTokens cur ++ (ws.map lineTokens).flatten := by
  intro ws
  induction ws with
  | nil =>
    intro res cur _
    by_cases h : cur = ""
    · subst h
      simp [wrapGo, lineTokens_empty]
    · simp only [wrapGo, if_neg h]
      simp [allTokens_append, allTokens_singleton]
  | cons w ws ih =>
    intro res cur hws
    have hws' : ∀ x ∈ ws, ∀ c ∈ x.data, c ≠ ' ' := fun x hx => hws x (by simp [hx])
    by_cases hcur : cur = ""
    · subst hcur
      have e : wrapGo measure maxW (w :: ws) res "" = wrapGo measure maxW ws res w := by
        simp [wrapGo]
      rw [e, ih res w hws']
      simp [lineTokens_empty]
    · by_cases hm : maxW < measure (cur ++ " " ++ w)
      · have e : wrapGo measure maxW (w :: ws) res cur
            = wrapGo measure maxW ws (res ++ [cur]) w := by
          simp only [wrapGo, hcur, if_false, ite_false]
          rw [if_pos ⟨hm, hcur⟩]
        rw [e, ih (res ++ [cur]) w hws']
        simp [allTokens_append, allTokens_singleton, List.append_assoc]
      · have e : wrapGo measure maxW (w :: ws) res cur
            = wrapGo measure maxW ws res (cur ++ " " ++ w) := by
          simp only [wrapGo, hcur, if_false, ite_false]
          rw [if_neg (fun hc => hm hc.1)]
        rw [e, ih res (cur ++ " " ++ w) hws']
        rw [lineTokens_append_space]
        simp [List.append_assoc]

/-- Lines already flushed stay in the output of the loop. -/
lemma wrapGo_mem_res (measure : String → ℚ) (maxW : ℚ) :
    ∀ (ws res : List String) (cur x : String), x ∈ res → x ∈ wrapGo measure maxW ws res cur := by
  intro ws
  induction ws with
  | nil =>
    intro res cur x hx
    by_cases h : cur = "" <;> simp [wrapGo, h, hx]
  | cons w ws ih =>
    intro res cur x hx
    by_cases hcur : cur = ""
    · subst hcur
      have e : wrapGo measure maxW (w :: ws) res "" = wrapGo measure maxW ws res w := by
        simp [wrapGo]
      rw [e]
      exact ih _ _ _ hx
    · by_cases hm : maxW < measure (cur ++ " " ++ w)
      · have e : wrapGo measure maxW (w :: ws) res cur
            = wrapGo measure maxW ws (res ++ [cur]) w := by
          simp only [wrapGo, hcur, if_false, ite_false]
          rw [if_pos ⟨hm, hcur⟩]
        rw [e]
        exact ih _ _ _ (List.mem_append_left _ hx)
      · have e : wrapGo measure maxW (w :: ws) res cur
            = wrapGo measure maxW ws res (cur ++ " " ++ w) := by
          simp only [wrapGo, hcur, if_false, ite_false]
          rw [if_neg (fun hc => hm hc.1)]
        rw [e]
        exact ih _ _ _ hx

/-- When the current line already measures wider than the bound, it is flushed
as a line of its own (measure monotone under appending on the right). -/
lemma wrapGo_wide_cur (measure : String → ℚ) (maxW : ℚ)
    (hmono : ∀ a b : String, measure a ≤ measure (a ++ b) ∧ measure b ≤ measure (a ++ b)) :
    ∀ (ws res : List String) (cur : String), cur ≠ "" → maxW < measure cur →
      cur ∈ wrapGo measure maxW ws res cur := by
  intro ws
  induction ws with
  | nil =>
    intro res cur h _
    simp [wrapGo, h]
  | cons w ws ih =>
    intro res cur h hw
    have htest : maxW < measure (cur ++ " " ++ w) := by
      have hm := (hmono cur (" " ++ w)).1
      have e : cur ++ " " ++ w = cur ++ (" " ++ w) := by
        apply strEq_of_data
        simp [strData_append, List.append_assoc]
      rw [e]
      linarith
    simp only [wrapGo, h, if_false, ite_false]
    rw [if_pos ⟨htest, h⟩]
    exact wrapGo_mem_res measure maxW ws (res ++ [cur]) w cur (by simp)

/-- A word of the input measuring wider than the bound ends up as an element
of the output. -/
lemma wrapGo_wide_word (measure : String → ℚ) (maxW : ℚ)
    (hmono : ∀ a b : String, measure a ≤ measure (a ++ b) ∧ measure b ≤ measure (a ++ b)) :
    ∀ (ws res : List String) (cur w : String), w ∈ ws → w ≠ "" → maxW < measure w →
      w ∈ wrapGo measure maxW ws res cur := by
  intro ws
  induction ws with
  | nil =>
    intro res cur w h
    simp at h
  | cons u ws ih =>
    intro res cur w hmem hne hw
    rcases List.mem_cons.mp hmem with rfl | hmem
    · by_cases hcur : cur = ""
      · subst hcur
        have e : wrapGo measure maxW (w :: ws) res "" = wrapGo measure maxW ws res w := by
          simp [wrapGo]
        rw [e]
        exact wrapGo_wide_cur measure maxW hmono ws res w hne hw
      · have htest : maxW < measure (cur ++ " " ++ w) := by
          have hm := (hmono (cur ++ " ") w).2
          linarith
        have e : wrapGo measure maxW (w :: ws) res cur
            = wrapGo measure maxW ws (res ++ [cur]) w := by
          simp only [wrapGo, hcur, if_false, ite_false]
          rw [if_pos ⟨htest, hcur⟩]
        rw [e]
        exact wrapGo_wide_cur measure maxW hmono ws (res ++ [cur]) w hne hw
    · by_cases hcur : cur = ""
      · subst hcur
        have e : wrapGo measure maxW (u :: ws) res "" = wrapGo measure maxW ws res u := by
          simp [wrapGo]
        rw [e]
        exact ih _ _ _ hmem hne hw
      · by_cases hm : maxW < measure (cur ++ " " ++ u)
        · have e : wrapGo measure maxW (u :: ws) res cur
              = wrapGo measure maxW ws (res ++ [cur]) u := by
            simp only [wrapGo, hcur, if_false, ite_false]
            rw [if_pos ⟨hm, hcur⟩]
          rw [e]
          exact ih _ _ _ hmem hne hw
        · have e : wrapGo measure maxW (u :: ws) res cur
              = wrapGo measure maxW ws res (cur ++ " " ++ u) := by
            simp only [wrapGo, hcur, if_false, ite_false]
            rw [if_neg (fun hc => hm hc.1)]
          rw [e]
          exact ih _ _ _ hmem hne hw

/-- C9: `wrapText` never splits a word.  First, the nonempty space-separated
tokens of the output lines are exactly the nonempty tokens of the input text,
in order — every word lands intact on exactly one output line, nothing is
lost, duplicated or reordered.  Second, whenever the measure is monotone under
concatenation (as a text advance width is), a single word measuring wider
than `maxWidth` is emitted as a line of its own rather than being broken. -/
theorem wrapText_never_splits_words (measure : String → ℚ) (maxWidth : ℚ) (text : String) :
    allTokens (wrapText measure text maxWidth) = lineTokens text ∧
    ((∀ a b : String, measure a ≤ measure (a ++ b) ∧ measure b ≤ measure (a ++ b)) →
      ∀ w ∈ jsSplit text, w ≠ "" → maxWidth < measure w →
        w ∈ wrapText measure text maxWidth) := by
  constructor
  · unfold wrapText
    rw [wrapGo_tokens measure maxWidth (jsSplit text) [] ""
        (fun w hw => splitSp_no_space text.data [] (by simp) w hw)]
    rw [flatten_word_tokens (jsSplit text)
        (fun w hw => splitSp_no_space text.data [] (by simp) w hw)]
    rw [lineTokens_empty]
    simp only [allTokens, List.map_nil, List.flatten_nil, List.nil_append, List.append_nil]
    rfl
  · intro hmono w hmem hne hw
    exact wrapGo_wide_word measure maxWidth hmono (jsSplit text) [] "" w hmem hne hw

/-- Witness for C9: with the character-count measure (monotone under
concatenation) and width bound 3, the 5-character word of the text
`hello a` is wider than the bound and is emitted intact as its own line. -/
theorem wrapText_never_splits_words_witness :
    "hello" ∈ wrapText (fun s => (s.data.length : ℚ)) "hello a" 3 := by
  have h := (wrapText_never_splits_words (fun s => (s.data.length : ℚ)) 3 "hello a").2
  apply h
  · intro a b
    constructor
    · show ((a.data.length : ℚ)) ≤ (((a ++ b).data.length : ℚ))
      rw [strData_append]
      have hb : (0 : ℚ) ≤ (b.data.length : ℚ) := Nat.cast_nonneg _
      push_cast [List.length_append]
      linarith
    · show ((b.data.length : ℚ)) ≤ (((a ++ b).data.length : ℚ))
      rw [strData_append]
      have ha : (0 : ℚ) ≤ (a.data.length : ℚ) := Nat.cast_nonneg _
      push_cast [List.length_append]
      linarith
  · decide
  · decide
  · decide

end MapSnap

namespace MapSnap

/-- `joinSp` on a cons with a nonempty tail. -/
lemma joinSp_cons (s : String) (l : List String) (h : l ≠ []) :
    joinSp (s :: l) = s ++ " " ++ joinSp l := by
  cases l with
  | nil => exact absurd rfl h
  | cons x xs => rfl

/-- Appending a nonempty string on the left keeps a string nonempty. -/
lemma strAppend_ne_empty (a b : String) (h : a ≠ "") : a ++ b ≠ "" := by
  intro hab
  apply h
  have hd := congrArg String.data hab
  rw [strData_append] at hd
  have ha : a.data = [] := (List.append_eq_nil.mp hd).1
  apply strEq_of_data
  simpa using ha

/-- Merging the last two lines with a space does not change the joined text. -/
lemma joinSp_glue (res : List String) (c t : String) :
    joinSp (res ++ [c, t]) = joinSp (res ++ [c ++ " " ++ t]) := by
  induction res with
  | nil => rfl
  | cons r res ih =>
    have h1 : res ++ [c, t] ≠ [] := by simp
    have h2 : res ++ [c ++ " " ++ t] ≠ [] := by simp
    rw [List.cons_append, joinSp_cons r _ h1, List.cons_append, joinSp_cons r _ h2, ih]

/-- Unfolding `sepFold` one word at a time. -/
lemma sepFold_cons (a w : String) (l : List String) :
    sepFold a (w :: l) = sepFold (a ++ " " ++ w) l := rfl

/-- `sepFold` is `joinSp` with the seed in front. -/
lemma sepFold_eq_joinSp (l : List String) : ∀ a, sepFold a l = joinSp (a :: l) := by
  induction l with
  | nil => intro a; rfl
  | cons w ws ih =>
    intro a
    rw [sepFold_cons, ih]
    by_cases h : ws = []
    · subst h; rfl
    · have e1 : joinSp ((a ++ " " ++ w) :: ws) = (a ++ " " ++ w) ++ " " ++ joinSp ws :=
        joinSp_cons _ ws h
      have e2 : joinSp (a :: w :: ws) = a ++ " " ++ joinSp (w :: ws) :=
        joinSp_cons _ _ (by simp)
      have e3 : joinSp (w :: ws) = w ++ " " ++ joinSp ws := joinSp_cons _ ws h
      rw [e1, e2, e3]
      apply strEq_of_data
      simp [strData_append, List.append_assoc]

/-- Prepending a seed through `sepFold`. -/
lemma sepFold_pull (l : List String) : ∀ a b : String,
    a ++ " " ++ sepFold b l = sepFold (a ++ " " ++ b) l := by
  induction l with
  | nil => intro a b; rfl
  | cons x xs ih =>
    intro a b
    rw [sepFold_cons, sepFold_cons, ih]
    congr 1
    apply strEq_of_data
    simp [strData_append, List.append_assoc]

/-- Joining the output of the `wrapText` loop restores the flushed lines plus
the glue of the current line with the remaining words, as one text. -/
lemma wrapGo_join (measure : String → ℚ) (maxW : ℚ) :
    ∀ (ws res : List String) (cur : String), cur ≠ "" → (∀ w ∈ ws, w ≠ "") →
      joinSp (wrapGo measure maxW ws res cur) = joinSp (res ++ [sepFold cur ws]) := by
  intro ws
  induction ws with
  | nil =>
    intro res cur h _
    simp only [wrapGo, if_neg h]
    rfl
  | cons w ws ih =>
    intro res cur hcur hws
    have hw : w ≠ "" := hws w (by simp)
    have hws' : ∀ x ∈ ws, x ≠ "" := fun x hx => hws x (by simp [hx])
    by_cases hm : maxW < measure (cur ++ " " ++ w)
    · have e : wrapGo measure maxW (w :: ws) res cur
          = wrapGo measure maxW ws (res ++ [cur]) w := by
        simp only [wrapGo, hcur, if_false, ite_false]
        rw [if_pos ⟨hm, hcur⟩]
      rw [e, ih (res ++ [cur]) w hw hws', List.append_assoc]
      show joinSp (res ++ [cur, sepFold w ws]) = _
      rw [joinSp_glue, sepFold_cons, ← sepFold_pull]
    · have e : wrapGo measure maxW (w :: ws) res cur
          = wrapGo measure maxW ws res (cur ++ " " ++ w) := by
        simp only [wrapGo, hcur, if_false, ite_false]
        rw [if_neg (fun hc => hm hc.1)]
      rw [e, ih res (cur ++ " " ++ w) (strAppend_ne_empty _ _ (strAppend_ne_empty _ _ hcur)) hws']
      rw [sepFold_cons]

/-- Joining the pieces of `splitSp` restores the character list. -/
lemma joinSp_splitSp (cs : List Char) : ∀ acc,
    joinSp (splitSp cs acc) = String.mk (acc.reverse ++ cs) := by
  induction cs with
  | nil =>
    intro acc
    simp [splitSp, joinSp]
  | cons c cs ih =>
    intro acc
    by_cases h : c = ' '
    · subst h
      simp only [splitSp, if_true, ite_true]
      rw [joinSp_cons _ _ (splitSp_ne_nil cs []), ih []]
      apply strEq_of_data
      simp [strData_append]
    · simp only [splitSp, if_neg h]
      rw [ih (c :: acc)]
      congr 1
      simp

/-- C10: for every input text whose space-separated words are all nonempty
(no leading, trailing or consecutive spaces), joining the lines returned by
`wrapText` in order with single spaces yields exactly the original text:
wrapping loses, duplicates and reorders no characters. -/
theorem wrapText_join_roundtrip (measure : String → ℚ) (maxWidth : ℚ) (text : String)
    (h : ∀ w ∈ jsSplit text, w ≠ "") :
    joinSp (wrapText measure text maxWidth) = text := by
  unfold wrapText
  obtain ⟨w0, ws, hsplit⟩ : ∃ w0 ws, jsSplit text = w0 :: ws := by
    cases hs : jsSplit text with
    | nil => exact absurd hs (splitSp_ne_nil _ _)
    | cons a l => exact ⟨a, l, rfl⟩
  rw [hsplit]
  have hw0 : w0 ≠ "" := h w0 (by rw [hsplit]; simp)
  have hws : ∀ x ∈ ws, x ≠ "" := fun x hx => h x (by rw [hsplit]; simp [hx])
  have e1 : wrapGo measure maxWidth (w0 :: ws) [] "" = wrapGo measure maxWidth ws [] w0 := by
    simp [wrapGo]
  rw [e1, wrapGo_join measure maxWidth ws [] w0 hw0 hws]
  simp only [List.nil_append]
  rw [show joinSp [sepFold w0 ws] = sepFold w0 ws from rfl]
  rw [sepFold_eq_joinSp ws w0, ← hsplit]
  unfold jsSplit
  rw [joinSp_splitSp text.data []]
  cases text with
  | mk d => simp

/-- Witness for C10: the hypothesis (all words nonempty) holds for the text
`a b`, and wrapping then joining restores it. -/
theorem wrapText_join_roundtrip_witness :
    (∀ w ∈ jsSplit "a b", w ≠ "") ∧
    joinSp (wrapText (fun _ => 0) "a b" 1) = "a b" :=
  ⟨by decide, wrapText_join_roundtrip (fun _ => 0) 1 "a b" (by decide)⟩

end MapSnap

namespace MapSnap

/-- From any scale of the form `0.5 + j/100`, `j + 1` trials always reach a
break: either a trial is accepted on the way down, or the floor test fires at
exactly 0.5; either way the returned scale is at least the floor. -/
lemma fitLoopAux_reaches_floor (trial : ℚ → TrialResult) (maxH : ℚ) :
    ∀ j : ℕ, ∃ t r, fitLoopAux trial maxH (j + 1) (1/2 + (j : ℚ)/100) = some (t, r) ∧
      minScaleFactor ≤ r := by
  intro j
  induction j with
  | zero =>
    refine ⟨trial (1/2 + (0 : ℚ)/100), 1/2 + (0 : ℚ)/100, ?_, by norm_num [minScaleFactor]⟩
    simp only [fitLoopAux, Nat.cast_zero]
    rw [if_pos (Or.inr (by norm_num [minScaleFactor]))]
  | succ j ih =>
    obtain ⟨t, r, he, hr⟩ := ih
    by_cases hb : ((trial (1/2 + ((j : ℚ) + 1)/100)).totalTextHeight ≤ maxH ∧
        (trial (1/2 + ((j : ℚ) + 1)/100)).forceShrink = false) ∨
        (1/2 + ((j : ℚ) + 1)/100) ≤ minScaleFactor
    · refine ⟨trial (1/2 + ((j : ℚ) + 1)/100), 1/2 + ((j : ℚ) + 1)/100, ?_, ?_⟩
      · simp only [fitLoopAux, Nat.cast_succ]
        rw [if_pos hb]
      · have hj : (0 : ℚ) ≤ (j : ℚ) := Nat.cast_nonneg j
        simp only [minScaleFactor]
        linarith
    · refine ⟨t, r, ?_, hr⟩
      simp only [fitLoopAux, Nat.cast_succ]
      rw [if_neg hb]
      have e : 1/2 + ((j : ℚ) + 1)/100 - 1/100 = 1/2 + (j : ℚ)/100 := by ring
      rw [e]
      exact he

/-- C4: for every measure and every segment list — including ones that can
never fit — the auto-fit layout loop terminates (its 201-trial budget is never
exhausted, since the scale reaches the floor after exactly 200 steps of 0.01
from 2.5), and the scale factor it returns is at least the configured floor
of 0.5. -/
theorem autoFitLayout_terminates_at_or_above_floor
    (measure : Bool → ℤ → String → ℚ) (p : LayoutParams) (segs : List Seg) :
    ∃ t cf, autoFitLayout measure p segs = some (t, cf) ∧ minScaleFactor ≤ cf := by
  obtain ⟨t, r, he, hr⟩ :=
    fitLoopAux_reaches_floor (layoutTrial measure p segs) p.maxTextHeight 200
  refine ⟨t, r, ?_, hr⟩
  unfold autoFitLayout
  rw [show (201 : ℕ) = 200 + 1 from rfl, show (5/2 : ℚ) = 1/2 + (200 : ℚ)/100 by norm_num]
  rw [show ((200 : ℕ) : ℚ) = (200 : ℚ) from by norm_num] at he
  exact he

/-- The `forceShrink` flag accumulated by a pass of the layout loop is the
disjunction of the per-segment wrap-count conditions. -/
lemma foldl_layoutStep_forceShrink (measure : Bool → ℤ → String → ℚ) (p : LayoutParams)
    (cf : ℚ) :
    ∀ (segs : List Seg) (acc : TrialResult),
      (segs.foldl (layoutStep measure p cf) acc).forceShrink
        = (acc.forceShrink || segs.any fun l =>
            decide (3 < (segWrapAt measure p l cf).length) ||
              (l.hasFlag && decide (2 < (segWrapAt measure p l cf).length))) := by
  intro segs
  induction segs with
  | nil => intro acc; simp
  | cons l segs ih =>
    intro acc
    rw [List.foldl_cons, ih]
    have hstep : (layoutStep measure p cf acc l).forceShrink
        = (acc.forceShrink || (decide (3 < (segWrapAt measure p l cf).length) ||
            (l.hasFlag && decide (2 < (segWrapAt measure p l cf).length)))) := by
      simp [layoutStep, Bool.or_assoc]
    rw [hstep]
    simp [Bool.or_assoc]

/-- The `forceShrink` result of one trial. -/
lemma layoutTrial_forceShrink (measure : Bool → ℤ → String → ℚ) (p : LayoutParams)
    (segs : List Seg) (cf : ℚ) :
    (layoutTrial measure p segs cf).forceShrink
      = segs.any fun l =>
          decide (3 < (segWrapAt measure p l cf).length) ||
            (l.hasFlag && decide (2 < (segWrapAt measure p l cf).length)) := by
  unfold layoutTrial
  rw [foldl_layoutStep_forceShrink]
  simp

/-- C5: at a trial scale above the floor, whenever some segment wraps to more
than 3 lines, or a flag-carrying (title) segment wraps to more than 2 lines,
the trial is rejected: the trial's `forceShrink` flag is raised — regardless
of whether the total height would fit — and the loop does not stop at this
scale but continues with the scale reduced by 0.01. -/
theorem layoutLoop_rejects_overwrapped_trial
    (measure : Bool → ℤ → String → ℚ) (p : LayoutParams) (segs : List Seg)
    (cf : ℚ) (n : ℕ) (hfloor : minScaleFactor < cf)
    (hover : ∃ l ∈ segs, 3 < (segWrapAt measure p l cf).length ∨
        (l.hasFlag = true ∧ 2 < (segWrapAt measure p l cf).length)) :
    (layoutTrial measure p segs cf).forceShrink = true ∧
    fitLoopAux (layoutTrial measure p segs) p.maxTextHeight (n + 1) cf
      = fitLoopAux (layoutTrial measure p segs) p.maxTextHeight n (cf - 1/100) := by
  have hfs : (layoutTrial measure p segs cf).forceShrink = true := by
    rw [layoutTrial_forceShrink, List.any_eq_true]
    obtain ⟨l, hl, hcase⟩ := hover
    refine ⟨l, hl, ?_⟩
    rcases hcase with h3 | ⟨hf, h2⟩
    · simp [h3]
    · simp [hf, h2]
  refine ⟨hfs, ?_⟩
  simp only [fitLoopAux]
  rw [if_neg]
  rintro (⟨_, hfalse⟩ | hle)
  · rw [hfs] at hfalse
    exact absurd hfalse (by simp)
  · exact absurd hle (not_le.mpr hfloor)

/-- Witness for C5: with a character-count measure, a content width of 1 and a
single flag-free segment of five words, the segment wraps to 5 > 3 lines at
trial scale 1 > 0.5, and the trial is rejected. -/
theorem layoutLoop_rejects_overwrapped_trial_witness :
    (layoutTrial (fun _ _ s => (s.data.length : ℚ)) ⟨1, 1, 100⟩
        [⟨"a b c d e", 20, false, false⟩] 1).forceShrink = true := by
  have e : segWrapAt (fun _ _ s => ((s.data.length : ℚ))) ⟨1, 1, 100⟩
      ⟨"a b c d e", 20, false, false⟩ 1 = ["a", "b", "c", "d", "e"] := by
    unfold segWrapAt segFlagSpace
    simp only [Bool.false_eq_true, if_false, ite_false, Int.cast_zero, sub_zero]
    decide
  have h := layoutLoop_rejects_overwrapped_trial (fun _ _ s => (s.data.length : ℚ))
      ⟨1, 1, 100⟩ [⟨"a b c d e", 20, false, false⟩] 1 0
      (by norm_num [minScaleFactor])
      ⟨⟨"a b c d e", 20, false, false⟩, by simp, Or.inl (by rw [e]; norm_num)⟩
  exact h.1

end MapSnap

namespace MapSnap

/-- C8 counterexample: a concrete composite where the map tile and badge icon
load but the flag load fails.  The resulting drawing trace is exactly the
successful trace with the flag image removed and nothing added in its place:
no placeholder fill (and no label) is drawn for the failed flag, so the claim
that every failed decorative asset's area is filled with a solid placeholder
is false — only the map tile has a placeholder path. -/
theorem drawOverlay_failed_flag_gets_no_placeholder :
    drawOverlayOps (.ok ()) (.ok ()) (.error ()) "ID" "GPS Map Camera"
        [⟨["Ngaglik, Jawa Tengah, Indonesia"], 40, false, true⟩]
      = .ok [DrawOp.badgeBox, DrawOp.badgeIcon, DrawOp.badgeText "GPS Map Camera",
             DrawOp.infoBox, DrawOp.mapWhiteBg, DrawOp.mapImage, DrawOp.mapLogo,
             DrawOp.textLine "Ngaglik, Jawa Tengah, Indonesia"] ∧
    drawOverlayOps (.ok ()) (.ok ()) (.ok ()) "ID" "GPS Map Camera"
        [⟨["Ngaglik, Jawa Tengah, Indonesia"], 40, false, true⟩]
      = .ok [DrawOp.badgeBox, DrawOp.badgeIcon, DrawOp.badgeText "GPS Map Camera",
             DrawOp.infoBox, DrawOp.mapWhiteBg, DrawOp.mapImage, DrawOp.mapLogo,
             DrawOp.textLine "Ngaglik, Jawa Tengah, Indonesia", DrawOp.flagImage] := by
  constructor <;> rfl

/-- Text lines are always part of the trace. -/
lemma mem_textOps (blocks : List WrappedBlock) (flagImg : Bool) (b : WrappedBlock)
    (hb : b ∈ blocks) (s : String) (hs : s ∈ b.lines) :
    DrawOp.textLine s ∈ (blocks.map (fun block =>
      (block.lines.map DrawOp.textLine) ++
        (if block.hasFlag && flagImg && !(block.lines == []) then [DrawOp.flagImage]
         else []))).flatten := by
  rw [List.mem_flatten]
  exact ⟨_, List.mem_map_of_mem _ hb, List.mem_append_left _ (List.mem_map_of_mem _ hs)⟩

/-- C8 amended: `drawOverlay` absorbs every decorative asset-load failure and
always completes — the trace is `ok` for every combination of outcomes — and
the rest of the composite (badge box, watermark text, info box, every wrapped
text line) is still drawn.  A failed map tile degrades to a solid placeholder
fill plus the short `Map` label; a failed badge icon or flag is simply
omitted, with no substitute drawn in its place. -/
theorem drawOverlayOps_absorbs_asset_failures
    (iconLoad mapLoad flagLoad : Except Unit Unit) (cc wm : String)
    (blocks : List WrappedBlock) :
    ∃ ops : List DrawOp,
      drawOverlayOps iconLoad mapLoad flagLoad cc wm blocks = .ok ops ∧
      DrawOp.badgeBox ∈ ops ∧ DrawOp.badgeText wm ∈ ops ∧ DrawOp.infoBox ∈ ops ∧
      (∀ b ∈ blocks, ∀ s ∈ b.lines, DrawOp.textLine s ∈ ops) ∧
      (mapLoad = .error () → DrawOp.mapPlaceholderFill ∈ ops ∧ DrawOp.mapLabel ∈ ops) ∧
      (flagLoad = .error () → DrawOp.flagImage ∉ ops) ∧
      (iconLoad = .error () → DrawOp.badgeIcon ∉ ops) := by
  refine ⟨_, rfl, ?_, ?_, ?_, ?_, ?_, ?_, ?_⟩
  · simp [List.mem_append]
  · simp [List.mem_append]
  · simp [List.mem_append]
  · intro b hb s hs
    simp only [List.mem_append]
    exact Or.inr (mem_textOps blocks _ b hb s hs)
  · intro hmap
    subst hmap
    constructor <;> simp [List.mem_append]
  · intro hflag
    subst hflag
    rcases iconLoad with u | u <;> rcases mapLoad with v | v <;>
      simp [List.mem_append, List.mem_flatten, List.mem_map]
  · intro hicon
    subst hicon
    rcases flagLoad with u | u <;> rcases mapLoad with v | v <;>
      simp [List.mem_append, List.mem_flatten, List.mem_map]

/-- Witness for C8 (amended): the theorem applied at a concrete failing map
tile, with the placeholder fill and label present in the trace. -/
theorem drawOverlayOps_absorbs_asset_failures_witness :
    ∃ ops : List DrawOp,
      drawOverlayOps (.ok ()) (.error ()) (.ok ()) "ID" "GPS Map Camera"
          [⟨["Ngaglik, Jawa Tengah, Indonesia"], 40, false, true⟩] = .ok ops ∧
      DrawOp.mapPlaceholderFill ∈ ops ∧ DrawOp.mapLabel ∈ ops := by
  obtain ⟨ops, hok, _, _, _, _, hmap, _, _⟩ :=
    drawOverlayOps_absorbs_asset_failures (.ok ()) (.error ()) (.ok ()) "ID" "GPS Map Camera"
      [⟨["Ngaglik, Jawa Tengah, Indonesia"], 40, false, true⟩]
  exact ⟨ops, hok, hmap rfl⟩

end MapSnap
